import Mathlib

/-!
Shallow embedding of the binance-paper-trading ledger and matching engine.

The Python sources embedded here are `src/trades_service.py` (class
`TradesService`), `src/binance_service.py` (commission-rate normalization in
`BinanceService.get_symbol_commission_rates`) and `src/app.py` (class
`BinancePriceApp`, which carries its own inline copies of the ledger logic
with some differences from `TradesService`).

Conventions of the embedding:
- Python floats are modelled as exact rationals (`ℚ`).
- `dict.get(key, default)` on the optional position fee fields is modelled by
  `Option ℚ` fields plus `Option.getD`.
- Network fetches (`get_symbol_prices`, `get_symbol_commission_rates`) are
  modelled as explicit parameters: a parsed mark price is `Option ℚ`
  (`none` = `float(...)` raised `ValueError`), and the per-symbol commission
  lookup is a function argument `rates : String → ℚ × ℚ`.
- The random token stream drawn by `secrets.token_hex(3)` inside
  `TradesService._next_id` is an explicit list of candidate suffixes; the
  unbounded retry loop becomes "first fresh candidate" (`Option`-valued).
- The sqlite `trades` table is modelled as the `persisted` list; a write that
  raises is modelled by the `persistOk : Bool` parameter, and an uncaught
  exception propagating out of `close_position_market` is the `Except.error`
  result together with the state as mutated up to the raising statement.
-/

/-- An open position, mirroring the position dicts built in
`TradesService.submit_market_order` / `check_and_fill_limit_orders` and in
`BinancePriceApp.order_submitted` / `fetch_and_update`.  Positions built by
`app.py` carry no `maker_fee_rate` / `taker_fee_rate` keys, hence the
`Option` fields. -/
structure Position where
  id : String
  symbol : String
  side : String
  size : ℚ
  entry : ℚ
  liquidation : String
  breakeven : ℚ
  open_fee : ℚ
  pnl : ℚ
  net_pnl : ℚ
  maker_fee_rate : Option ℚ
  taker_fee_rate : Option ℚ
  deriving DecidableEq, Repr

/-- A pending limit order (`TradesService.submit_limit_order`,
`BinancePriceApp.order_submitted` limit branch).  `position_id` is present
exactly for exit orders. -/
structure Order where
  id : String
  symbol : String
  side : String
  size : ℚ
  limit_price : ℚ
  position_id : Option String
  deriving DecidableEq, Repr

/-- A closed-trade record, as appended to `history` and inserted into the
`trades` table. -/
structure Closed where
  id : String
  symbol : String
  side : String
  size : ℚ
  entry : ℚ
  close : ℚ
  net_pnl : ℚ
  deriving DecidableEq, Repr

/-- The mutable state owned by `TradesService`: the three in-memory
collections, the sqlite `trades` table (`persisted`), and the default fee
rates set in `__init__`. -/
structure TState where
  positions : List Position
  history : List Closed
  orders : List Order
  persisted : List Closed
  fee_rate_maker : ℚ
  fee_rate_taker : ℚ
  deriving DecidableEq, Repr

/-- `TradesService._next_id`: collect the ids of history rows, open positions
and pending orders, then return `f"{symbol}-{rand_hash}"` for the first random
suffix not already in use.  `cands` is the stream of values produced by
`secrets.token_hex(3)`. -/
def tsNextId (symbol : String) (s : TState) (cands : List String) : Option String :=
  let existing : List String :=
    s.history.map Closed.id ++ s.positions.map Position.id ++ s.orders.map Order.id
  (cands.map (fun h => symbol ++ "-" ++ h)).find? (fun c => !(existing.contains c))

/-- `TradesService.submit_market_order`, after resolving its awaits: `price`
is the explicit argument, `markFetch` the parsed mark price fetched when
`price is None`, and `maker`/`taker` the commission rates returned by
`get_symbol_commission_rates`.  Returns `none` when the entry price cannot be
determined (`ValueError`) or the id stream is exhausted. -/
def submitMarketOrder (s : TState) (symbol side : String) (size : ℚ)
    (price markFetch : Option ℚ) (maker taker : ℚ) (cands : List String) :
    Option (Position × TState) :=
  match price.orElse (fun _ => markFetch) with
  | none => none
  | some p =>
    match tsNextId symbol s cands with
    | none => none
    | some pos_id =>
      let open_fee := p * size * taker
      let position : Position :=
        { id := pos_id
          symbol := symbol
          side := side
          size := size
          entry := p
          liquidation := "-"
          breakeven := if side = "BUY" then p * (1 + maker * 2) else p * (1 - maker * 2)
          open_fee := open_fee
          pnl := 0
          net_pnl := -open_fee
          maker_fee_rate := some maker
          taker_fee_rate := some taker }
      some (position, { s with positions := s.positions ++ [position] })

/-- `TradesService.submit_limit_order`: exit orders get the deterministic id
`f"{position_id}-exit"`, entry orders draw a fresh id. -/
def submitLimitOrder (s : TState) (symbol side : String) (size limit_price : ℚ)
    (position_id : Option String) (cands : List String) : Option (Order × TState) :=
  let oid? := match position_id with
    | none => tsNextId symbol s cands
    | some pid => some (pid ++ "-exit")
  match oid? with
  | none => none
  | some oid =>
    let order : Order :=
      { id := oid
        symbol := symbol
        side := side
        size := size
        limit_price := limit_price
        position_id := position_id }
    some (order, { s with orders := s.orders ++ [order] })

/-- `TradesService.cancel_order`: keep every order whose id differs. -/
def cancelOrder (s : TState) (order_id : String) : TState :=
  { s with orders := s.orders.filter (fun o => o.id ≠ order_id) }

/-- Body of the loop in `TradesService.update_positions_pnl` for one
position: recompute `pnl` and `net_pnl` from the mark price, the position's
size/side/entry, its fixed `open_fee`, and
`pos.get("taker_fee_rate", self.fee_rate_taker)`. -/
def refreshPosition (fee_rate_taker mark_price : ℚ) (pos : Position) : Position :=
  let side_mult : ℚ := if pos.side = "BUY" then 1 else -1
  let pnl := (mark_price - pos.entry) * pos.size * side_mult
  let open_fee := pos.open_fee
  let taker_fee_rate := pos.taker_fee_rate.getD fee_rate_taker
  let close_fee := mark_price * pos.size * taker_fee_rate
  { pos with pnl := pnl, net_pnl := pnl - open_fee - close_fee }

/-- `TradesService.update_positions_pnl`. -/
def updatePositionsPnl (fee_rate_taker mark_price : ℚ) (ps : List Position) : List Position :=
  ps.map (refreshPosition fee_rate_taker mark_price)

/-- The trigger test of `TradesService.check_and_fill_limit_orders` (same
expression in `BinancePriceApp.fetch_and_update`): `last_price <=
o["limit_price"] if o["side"] == "BUY" else last_price >= o["limit_price"]`. -/
def trigger (last_price : ℚ) (o : Order) : Bool :=
  if o.side = "BUY" then last_price ≤ o.limit_price else last_price ≥ o.limit_price

/-- The closed-trade record built in the exit branch of
`TradesService.check_and_fill_limit_orders` when a triggered exit order
matches open position `pos`: pnl at the limit price, maker-side exit fee
`pos.get("maker_fee_rate", self.fee_rate_maker)`. -/
def exitCloseRecord (fee_rate_maker : ℚ) (pos : Position) (o : Order) : Closed :=
  let side_mult : ℚ := if pos.side = "BUY" then 1 else -1
  let pnl := (o.limit_price - pos.entry) * pos.size * side_mult
  let maker_fee_rate := pos.maker_fee_rate.getD fee_rate_maker
  let exit_fee := o.limit_price * pos.size * maker_fee_rate
  { id := pos.id
    symbol := pos.symbol
    side := pos.side
    size := pos.size
    entry := pos.entry
    close := o.limit_price
    net_pnl := pnl - pos.open_fee - exit_fee }

/-- The new position built in the entry branch of
`TradesService.check_and_fill_limit_orders` when entry limit order `o` fills:
maker-side open fee and maker-based breakeven, commission rates freshly
fetched for `o.symbol`. -/
def entryFillPosition (maker taker : ℚ) (o : Order) : Position :=
  let open_fee := o.limit_price * o.size * maker
  { id := o.id
    symbol := o.symbol
    side := o.side
    size := o.size
    entry := o.limit_price
    liquidation := "-"
    breakeven :=
      if o.side = "BUY" then o.limit_price * (1 + maker * 2)
      else o.limit_price * (1 - maker * 2)
    open_fee := open_fee
    pnl := 0
    net_pnl := -open_fee
    maker_fee_rate := some maker
    taker_fee_rate := some taker }

/-- The second loop of `TradesService.check_and_fill_limit_orders`: process
each triggered order in turn, removing it from the pending list and either
closing its linked position (exit order; skipped silently when the position
is gone) or opening a new position (entry order). `rates` stands for
`get_symbol_commission_rates`. -/
def processFilled (rates : String → ℚ × ℚ) : TState → List Order → TState
  | s, [] => s
  | s, o :: rest =>
    let s1 : TState := { s with orders := s.orders.erase o }
    match o.position_id with
    | some pid =>
      match s1.positions.find? (fun p => p.id = pid) with
      | none => processFilled rates s1 rest
      | some pos =>
        let closed := exitCloseRecord s1.fee_rate_maker pos o
        let s2 : TState :=
          { s1 with
            positions := s1.positions.filter (fun p => p.id ≠ pos.id)
            history := s1.history ++ [closed]
            persisted := s1.persisted ++ [closed] }
        processFilled rates s2 rest
    | none =>
      let mt := rates o.symbol
      let pos := entryFillPosition mt.1 mt.2 o
      processFilled rates { s1 with positions := s1.positions ++ [pos] } rest

/-- `TradesService.check_and_fill_limit_orders`: first collect every pending
order whose trigger fires at `last_price`, then process them in submission
order; returns the new state and the filled list. -/
def checkAndFillLimitOrders (rates : String → ℚ × ℚ) (last_price : ℚ) (s : TState) :
    TState × List Order :=
  let filled := s.orders.filter (trigger last_price)
  (processFilled rates s filled, filled)

/-- The closed-trade record built by `TradesService.close_position_market`
for position `pos` at parsed mark price `mark_f`: taker-side close fee
`pos.get("taker_fee_rate", self.fee_rate_taker)`. -/
def marketCloseRecord (fee_rate_taker : ℚ) (pos : Position) (mark_f : ℚ) : Closed :=
  let side_mult : ℚ := if pos.side = "BUY" then 1 else -1
  let pnl := (mark_f - pos.entry) * pos.size * side_mult
  let open_fee := pos.open_fee
  let taker_fee_rate := pos.taker_fee_rate.getD fee_rate_taker
  let close_fee := mark_f * pos.size * taker_fee_rate
  { id := pos.id
    symbol := pos.symbol
    side := pos.side
    size := pos.size
    entry := pos.entry
    close := mark_f
    net_pnl := pnl - open_fee - close_fee }

/-- `TradesService.close_position_market`, with the awaited mark-price fetch
passed in as `mark` (`none` = the price string failed to parse) and the
sqlite insert's success as `persistOk`.  The Python statement order is kept:
the position is removed and the record appended to `history` *before*
`_insert_trade`; if the insert raises (`persistOk = false`) the exception
propagates (`Except.error ()`) with those mutations already applied and the
linked-exit-order cleanup not yet reached.  A missing position or an
unparsable price returns Python `None` (`Except.ok none`) with the state
untouched. -/
def closePositionMarket (s : TState) (position_id : String) (mark : Option ℚ)
    (persistOk : Bool) : Except Unit (Option Closed) × TState :=
  match s.positions.find? (fun p => p.id = position_id) with
  | none => (Except.ok none, s)
  | some pos =>
    match mark with
    | none => (Except.ok none, s)
    | some mark_f =>
      let closed := marketCloseRecord s.fee_rate_taker pos mark_f
      let s1 : TState :=
        { s with
          positions := s.positions.filter (fun p => p.id ≠ position_id)
          history := s.history ++ [closed] }
      if persistOk then
        (Except.ok (some closed),
          { s1 with
            persisted := s1.persisted ++ [closed]
            orders := s1.orders.filter (fun o => o.position_id ≠ some position_id) })
      else
        (Except.error (), s1)

/-- Python `str.split("-")` on the character list of a string: split at every
dash. -/
def splitDash : List Char → List (List Char)
  | [] => [[]]
  | c :: rest =>
    let r := splitDash rest
    if c = '-' then [] :: r
    else
      match r with
      | [] => [[c]]
      | h :: t => (c :: h) :: t

/-- Python `int(...)` restricted to plain digit strings (the shape of the
numeric id suffixes at issue); anything else raises `ValueError`, modelled as
`none`. -/
def digitsToNat? (cs : List Char) : Option Nat :=
  if cs ≠ [] ∧ cs.all (fun c => c.isDigit) then
    some (cs.foldl (fun n c => 10 * n + (c.toNat - 48)) 0)
  else none

/-- `BinancePriceApp._next_id` (`src/app.py`): take the maximum over the
numeric suffix (`int(row["id"].split("-")[-1])`) of every *history* row only,
add one, and prefix the symbol.  An empty history (`max([])`) or a
non-numeric suffix (`int(...)`) raises, modelled as `none`. -/
def appNextId (symbol : String) (history : List Closed) : Option String :=
  match history.mapM (fun row => digitsToNat? ((splitDash row.id.toList).getLastD [])) with
  | none => none
  | some ns =>
    match ns.max? with
    | none => none
    | some mx => some (symbol ++ "-" ++ toString (mx + 1))

/-- The position dict built by the market branch of
`BinancePriceApp.order_submitted` (`src/app.py`): `open_fee = entry * size *
self.fee_rate_taker` and breakeven computed from `self.fee_rate_taker * 2`
(unlike `TradesService`, which uses the maker rate for breakeven); the dict
carries no `maker_fee_rate` / `taker_fee_rate` keys. -/
def appMarketPosition (position_id symbol side : String) (size entry fee_rate_taker : ℚ) :
    Position :=
  let open_fee := entry * size * fee_rate_taker
  { id := position_id
    symbol := symbol
    side := side
    size := size
    entry := entry
    liquidation := "-"
    breakeven :=
      if side = "BUY" then entry * (1 + fee_rate_taker * 2)
      else entry * (1 - fee_rate_taker * 2)
    open_fee := open_fee
    pnl := 0
    net_pnl := -open_fee
    maker_fee_rate := none
    taker_fee_rate := none }

/-- The normalization tail of `BinanceService.get_symbol_commission_rates`
(`src/binance_service.py`): a raw rate is `none` when the lookup failed or
the field was absent; `if not maker` replaces a missing *or zero* rate with
the default (0.0002 maker / 0.0004 taker); then a rate strictly greater than
1 is treated as basis points and divided by 10000. -/
def normalizeRates (makerRaw takerRaw : Option ℚ) : ℚ × ℚ :=
  let maker : ℚ := match makerRaw with
    | none => 0.0002
    | some v => if v = 0 then 0.0002 else v
  let taker : ℚ := match takerRaw with
    | none => 0.0004
    | some v => if v = 0 then 0.0004 else v
  let maker := if maker > 1 then maker / 10000 else maker
  let taker := if taker > 1 then taker / 10000 else taker
  (maker, taker)

/-- Erase the two fields that `update_positions_pnl` recomputes, for stating
that it changes nothing else. -/
def stripPnl (pos : Position) : Position :=
  { pos with pnl := 0, net_pnl := 0 }

/-- The default commission rates of `TradesService.__init__`, as a constant
rate lookup. -/
def defaultRates : String → ℚ × ℚ := fun _ => (0.0002, 0.0004)

/-- A fresh `TradesService` state (empty collections, default fees). -/
def emptyTS : TState :=
  { positions := []
    history := []
    orders := []
    persisted := []
    fee_rate_maker := 0.0002
    fee_rate_taker := 0.0004 }

/-- The position of the spec scenario: market BUY, size 1, entry 50000,
taker rate 0.0004, hence `open_fee = 20`. -/
def exPos : Position :=
  { id := "BTCUSDT-aaaaaa"
    symbol := "BTCUSDT"
    side := "BUY"
    size := 1
    entry := 50000
    liquidation := "-"
    breakeven := 50020
    open_fee := 20
    pnl := 0
    net_pnl := -20
    maker_fee_rate := some 0.0002
    taker_fee_rate := some 0.0004 }

/-- State holding just the scenario position. -/
def exTS : TState := { emptyTS with positions := [exPos] }

/-- A pending entry BUY limit order at limit price 100. -/
def exOrderBuy : Order :=
  { id := "BTCUSDT-bbbbbb"
    symbol := "BTCUSDT"
    side := "BUY"
    size := 1
    limit_price := 100
    position_id := none }

/-- State holding just the pending BUY limit order. -/
def exTSOrder : TState := { emptyTS with orders := [exOrderBuy] }

/-- An exit order whose `position_id` matches no open position. -/
def exOrphanExit : Order :=
  { id := "BTCUSDT-cccccc-exit"
    symbol := "BTCUSDT"
    side := "SELL"
    size := 1
    limit_price := 100
    position_id := some "BTCUSDT-cccccc" }

/-- State holding just the orphaned exit order and no positions. -/
def exTSOrphan : TState := { emptyTS with orders := [exOrphanExit] }

/-- A persisted history row whose id has numeric suffix 5. -/
def exHist5 : Closed :=
  { id := "BTCUSDT-5"
    symbol := "BTCUSDT"
    side := "BUY"
    size := 1
    entry := 50000
    close := 50500
    net_pnl := 459.8 }

/-- The open-position set produced by one `order_submitted` market call after
loading the history `[exHist5]`: `BinancePriceApp._next_id` returns
`"BTCUSDT-6"` and the position is created with that id. -/
def exAppPositions : List Position :=
  [appMarketPosition "BTCUSDT-6" "BTCUSDT" "BUY" 1 50000 0.0004]

/-- C1: closing an open position at price p realizes
`pnl = (p - entry) * size * side_sign` (+1 for BUY, -1 for SELL) and records
`net_pnl = pnl - open_fee - p * size * fee_rate_used`: the market close uses
the position's taker rate and appends/persists the record, and the
limit-exit close record uses the position's maker rate in the same shape. -/
theorem close_position_realized_pnl (s : TState) (position_id : String) (m : ℚ)
    (pos : Position)
    (h : s.positions.find? (fun p => p.id = position_id) = some pos) :
    (closePositionMarket s position_id (some m) true).1 =
      Except.ok (some (marketCloseRecord s.fee_rate_taker pos m)) ∧
    (closePositionMarket s position_id (some m) true).2.history =
      s.history ++ [marketCloseRecord s.fee_rate_taker pos m] ∧
    (closePositionMarket s position_id (some m) true).2.persisted =
      s.persisted ++ [marketCloseRecord s.fee_rate_taker pos m] ∧
    (marketCloseRecord s.fee_rate_taker pos m).net_pnl =
      (m - pos.entry) * pos.size * (if pos.side = "BUY" then 1 else -1)
        - pos.open_fee - m * pos.size * (pos.taker_fee_rate.getD s.fee_rate_taker) ∧
    (∀ o : Order, (exitCloseRecord s.fee_rate_maker pos o).net_pnl =
      (o.limit_price - pos.entry) * pos.size * (if pos.side = "BUY" then 1 else -1)
        - pos.open_fee - o.limit_price * pos.size * (pos.maker_fee_rate.getD s.fee_rate_maker)) := by
  unfold closePositionMarket
  rw [h]
  exact ⟨rfl, rfl, rfl, rfl, fun o => rfl⟩

/-- Witness for C1: the scenario position (entry 50000, size 1, open_fee 20,
taker rate 0.0004) closed at mark 51000 records `net_pnl = 959.6`. -/
theorem close_position_realized_pnl_witness :
    (closePositionMarket exTS "BTCUSDT-aaaaaa" (some 51000) true).1 =
      Except.ok (some (marketCloseRecord exTS.fee_rate_taker exPos 51000)) ∧
    (marketCloseRecord exTS.fee_rate_taker exPos 51000).net_pnl = 959.6 := by
  have h := close_position_realized_pnl exTS "BTCUSDT-aaaaaa" 51000 exPos (by rfl)
  refine ⟨h.1, ?_⟩
  rw [h.2.2.2.1]
  norm_num [exPos, exTS, emptyTS]

/-- C2: a pending BUY limit order is triggered iff `last_price ≤
limit_price`, any other (SELL) order iff `last_price ≥ limit_price`; in
particular exact equality triggers the order. -/
theorem limit_order_trigger_iff (rates : String → ℚ × ℚ) (last_price : ℚ) (s : TState)
    (o : Order) (ho : o ∈ s.orders) :
    (o ∈ (checkAndFillLimitOrders rates last_price s).2 ↔
      (if o.side = "BUY" then last_price ≤ o.limit_price else o.limit_price ≤ last_price)) ∧
    (last_price = o.limit_price → o ∈ (checkAndFillLimitOrders rates last_price s).2) := by
  have hmem : o ∈ (checkAndFillLimitOrders rates last_price s).2 ↔
      trigger last_price o = true := by
    simp [checkAndFillLimitOrders, List.mem_filter, ho]
  constructor
  · rw [hmem]
    unfold trigger
    split <;> simp [ge_iff_le]
  · intro he
    rw [hmem]
    unfold trigger
    split <;> simp [he, ge_iff_le]

/-- Witness for C2: a BUY order with limit price 100 is triggered when the
observed last price is exactly 100. -/
theorem limit_order_trigger_iff_witness :
    exOrderBuy ∈ (checkAndFillLimitOrders defaultRates 100 exTSOrder).2 := by
  have h := limit_order_trigger_iff defaultRates 100 exTSOrder exOrderBuy
    (by simp [exTSOrder, emptyTS])
  exact h.2 rfl

/-- C8: the unrealized-PnL refresh is idempotent for any mark price, keeps
the number of positions, and changes no field other than `pnl` and
`net_pnl`. -/
theorem refresh_unrealized_idempotent (fee_rate_taker mark_price : ℚ) (ps : List Position) :
    updatePositionsPnl fee_rate_taker mark_price
        (updatePositionsPnl fee_rate_taker mark_price ps)
      = updatePositionsPnl fee_rate_taker mark_price ps ∧
    (updatePositionsPnl fee_rate_taker mark_price ps).length = ps.length ∧
    (updatePositionsPnl fee_rate_taker mark_price ps).map stripPnl = ps.map stripPnl := by
  refine ⟨?_, ?_, ?_⟩
  · unfold updatePositionsPnl
    rw [List.map_map]
    exact List.map_congr_left fun p _ => rfl
  · unfold updatePositionsPnl
    exact List.length_map ps _
  · unfold updatePositionsPnl
    rw [List.map_map]
    exact List.map_congr_left fun p _ => rfl

/-- C9: `cancel_order` removes the pending order with the given id when one
exists — no order with that id remains and every other pending order is
kept — while positions, history and the persisted trades are untouched; and
when no pending order has that id it is a complete no-op (not an error): the
whole state is unchanged. -/
theorem cancel_order_spec (s : TState) (order_id : String) :
    (cancelOrder s order_id).orders = s.orders.filter (fun o => o.id ≠ order_id) ∧
    (∀ o ∈ (cancelOrder s order_id).orders, o.id ≠ order_id) ∧
    (∀ o ∈ s.orders, o.id ≠ order_id → o ∈ (cancelOrder s order_id).orders) ∧
    (cancelOrder s order_id).positions = s.positions ∧
    (cancelOrder s order_id).history = s.history ∧
    (cancelOrder s order_id).persisted = s.persisted ∧
    ((∀ o ∈ s.orders, o.id ≠ order_id) → cancelOrder s order_id = s) := by
  refine ⟨rfl, ?_, ?_, rfl, rfl, rfl, ?_⟩
  · intro o ho
    simpa using List.of_mem_filter
      (show o ∈ s.orders.filter (fun o => o.id ≠ order_id) from ho)
  · intro o ho hne
    exact List.mem_filter.mpr ⟨ho, by simpa using hne⟩
  · intro h
    unfold cancelOrder
    have hf : s.orders.filter (fun o => o.id ≠ order_id) = s.orders := by
      apply List.filter_eq_self.mpr
      intro o ho
      simpa using h o ho
    rw [hf]

/-- Witness for C9: cancelling the present order id empties the pending set
and leaves positions untouched, and cancelling an unknown id in the same
state changes nothing. -/
theorem cancel_order_spec_witness :
    (cancelOrder exTSOrder "BTCUSDT-bbbbbb").orders = [] ∧
    (cancelOrder exTSOrder "BTCUSDT-bbbbbb").positions = exTSOrder.positions ∧
    cancelOrder exTSOrder "BTCUSDT-zzzzzz" = exTSOrder := by
  have h := cancel_order_spec exTSOrder "BTCUSDT-bbbbbb"
  refine ⟨?_, h.2.2.2.1, ?_⟩
  · rw [h.1]
    decide
  · exact (cancel_order_spec exTSOrder "BTCUSDT-zzzzzz").2.2.2.2.2.2 (by decide)

/-- C10: a triggered exit order whose `position_id` matches no open position
is removed from the pending set and silently skipped: positions, history and
the persisted trades are untouched, and no error is raised. -/
theorem orphan_exit_order_vanishes (rates : String → ℚ × ℚ) (last_price : ℚ) (s : TState)
    (o : Order) (pid : String)
    (hord : s.orders = [o]) (hpid : o.position_id = some pid)
    (horphan : ∀ p ∈ s.positions, p.id ≠ pid)
    (htrig : trigger last_price o = true) :
    checkAndFillLimitOrders rates last_price s = ({ s with orders := [] }, [o]) := by
  have hfind : s.positions.find? (fun p => p.id = pid) = none := by
    apply List.find?_eq_none.mpr
    intro p hp
    simpa using horphan p hp
  unfold checkAndFillLimitOrders
  rw [hord, List.filter_cons_of_pos htrig, List.filter_nil]
  simp only [processFilled, hord, List.erase_cons_head, hpid, hfind]

/-- Witness for C10: in a state holding one orphaned SELL exit order at limit
100 and no open positions, a tick at last price 100 drops the order and
changes nothing else. -/
theorem orphan_exit_order_vanishes_witness :
    checkAndFillLimitOrders defaultRates 100 exTSOrphan =
      ({ exTSOrphan with orders := [] }, [exOrphanExit]) := by
  exact orphan_exit_order_vanishes defaultRates 100 exTSOrphan exOrphanExit
    "BTCUSDT-cccccc" rfl rfl (by decide) (by decide)

/-- C5 (amended): `TradesService._next_id` never returns an id already
present in the union of history, open-position and pending-order ids. -/
theorem ts_next_id_fresh (symbol : String) (s : TState) (cands : List String) (c : String)
    (h : tsNextId symbol s cands = some c) :
    c ∉ s.history.map Closed.id ∧ c ∉ s.positions.map Position.id ∧
      c ∉ s.orders.map Order.id := by
  unfold tsNextId at h
  have h2 := List.find?_some h
  simp [List.mem_append] at h2
  refine ⟨fun hc => ?_, fun hc => ?_, fun hc => ?_⟩
  · obtain ⟨a, ha, hid⟩ := List.mem_map.mp hc
    exact h2.1 a ha hid
  · obtain ⟨a, ha, hid⟩ := List.mem_map.mp hc
    exact h2.2.1 a ha hid
  · obtain ⟨a, ha, hid⟩ := List.mem_map.mp hc
    exact h2.2.2 a ha hid

/-- Witness for C5: in the scenario state the first candidate collides with
the open position's id and the generator returns the second, fresh id. -/
theorem ts_next_id_fresh_witness :
    tsNextId "BTCUSDT" exTS ["aaaaaa", "dddddd"] = some "BTCUSDT-dddddd" ∧
    "BTCUSDT-dddddd" ∉ exTS.history.map Closed.id ∧
    "BTCUSDT-dddddd" ∉ exTS.positions.map Position.id ∧
    "BTCUSDT-dddddd" ∉ exTS.orders.map Order.id := by
  have h := ts_next_id_fresh "BTCUSDT" exTS ["aaaaaa", "dddddd"] "BTCUSDT-dddddd" (by decide)
  exact ⟨by decide, h⟩

/-- C5 counterexample: `BinancePriceApp._next_id` consults only the history
rows, so after one market order following a loaded history whose last row is
`BTCUSDT-5`, the next call returns `BTCUSDT-6` again — an id already borne by
the open position created by the first call. -/
theorem app_next_id_collision :
    appNextId "BTCUSDT" [exHist5] = some "BTCUSDT-6" ∧
    "BTCUSDT-6" ∈ exAppPositions.map Position.id := by
  constructor
  · rfl
  · simp [exAppPositions, appMarketPosition]

/-- C3 counterexample: the market branch of `BinancePriceApp.order_submitted`
computes breakeven from `self.fee_rate_taker`, so the scenario market BUY
(size 1, entry 50000, taker rate 0.0004) gets breakeven 50040, not the
maker-based 50000 × (1 + 2 × 0.0002) = 50020 the claim requires. -/
theorem app_market_breakeven_uses_taker :
    (appMarketPosition "BTCUSDT-6" "BTCUSDT" "BUY" 1 50000 0.0004).breakeven = 50040 ∧
    (appMarketPosition "BTCUSDT-6" "BTCUSDT" "BUY" 1 50000 0.0004).breakeven ≠
      50000 * (1 + 2 * 0.0002) := by
  constructor <;> norm_num [appMarketPosition]

/-- C3 (amended): positions opened through `TradesService` — by a market
order or a filled entry limit order — have maker-based breakeven
`fill × (1 ± 2 × maker_rate)`, `open_fee = fill × size × fee_rate_used`,
`pnl = 0` and `net_pnl = -open_fee`; positions opened by the app-level
market-order handler instead have taker-based breakeven
`fill × (1 ± 2 × taker_rate)`. -/
theorem open_position_fees_and_breakeven :
    (∀ (s : TState) (symbol side : String) (size : ℚ) (price markFetch : Option ℚ)
        (maker taker : ℚ) (cands : List String) (pos : Position) (st : TState),
      submitMarketOrder s symbol side size price markFetch maker taker cands
          = some (pos, st) →
      pos.breakeven = (if side = "BUY" then pos.entry * (1 + 2 * maker)
                       else pos.entry * (1 - 2 * maker)) ∧
      pos.open_fee = pos.entry * size * taker ∧ pos.pnl = 0 ∧
      pos.net_pnl = -pos.open_fee ∧
      st.positions = s.positions ++ [pos]) ∧
    (∀ (maker taker : ℚ) (o : Order),
      (entryFillPosition maker taker o).breakeven =
        (if o.side = "BUY" then o.limit_price * (1 + 2 * maker)
         else o.limit_price * (1 - 2 * maker)) ∧
      (entryFillPosition maker taker o).open_fee = o.limit_price * o.size * maker ∧
      (entryFillPosition maker taker o).pnl = 0 ∧
      (entryFillPosition maker taker o).net_pnl = -(entryFillPosition maker taker o).open_fee) ∧
    (∀ (position_id symbol side : String) (size entry fee_rate_taker : ℚ),
      (appMarketPosition position_id symbol side size entry fee_rate_taker).breakeven =
        (if side = "BUY" then entry * (1 + 2 * fee_rate_taker)
         else entry * (1 - 2 * fee_rate_taker))) := by
  refine ⟨?_, ?_, ?_⟩
  · intro s symbol side size price markFetch maker taker cands pos st h
    unfold submitMarketOrder at h
    cases hq : price.orElse fun _ => markFetch with
    | none => rw [hq] at h; exact absurd h (by simp)
    | some p =>
      rw [hq] at h
      cases hid : tsNextId symbol s cands with
      | none => rw [hid] at h; exact absurd h (by simp)
      | some pos_id =>
        rw [hid] at h
        simp only [Option.some.injEq, Prod.mk.injEq] at h
        obtain ⟨hpos, hst⟩ := h
        subst hpos
        refine ⟨?_, by ring_nf, rfl, rfl, by rw [← hst]⟩
        split <;> ring_nf
  · intro maker taker o
    refine ⟨?_, rfl, rfl, rfl⟩
    unfold entryFillPosition
    split <;> ring_nf
  · intro position_id symbol side size entry fee_rate_taker
    unfold appMarketPosition
    split <;> ring_nf

/-- Witness for C3: the scenario market BUY (size 1, entry 50000, maker rate
0.0002, taker rate 0.0004) submitted through `TradesService` yields
`open_fee = 20`, `net_pnl = -20` and breakeven 50020. -/
theorem open_position_fees_and_breakeven_witness :
    ∃ pos st,
      submitMarketOrder emptyTS "BTCUSDT" "BUY" 1 (some 50000) none 0.0002 0.0004
          ["aaaaaa"] = some (pos, st) ∧
      pos.open_fee = 20 ∧ pos.net_pnl = -20 ∧ pos.breakeven = 50020 ∧ pos.entry = 50000 := by
  obtain ⟨hbe, hof, hpnl, hnet, hst⟩ :=
    open_position_fees_and_breakeven.1 emptyTS "BTCUSDT" "BUY" 1 (some 50000) none
      0.0002 0.0004 ["aaaaaa"] _ _ rfl
  refine ⟨_, _, rfl, ?_, ?_, ?_, rfl⟩
  · rw [hof]; norm_num
  · rw [hnet, hof]; norm_num
  · rw [hbe]; norm_num

/-- C4 counterexample: closing the scenario position with the durable write
failing leaves an uncaught error, the position already removed from the open
set, and nothing persisted. -/
theorem close_persist_failure_not_atomic :
    (closePositionMarket exTS "BTCUSDT-aaaaaa" (some 51000) false).1 = Except.error () ∧
    (closePositionMarket exTS "BTCUSDT-aaaaaa" (some 51000) false).2.positions = [] ∧
    (closePositionMarket exTS "BTCUSDT-aaaaaa" (some 51000) false).2.persisted = [] := by
  refine ⟨rfl, ?_, rfl⟩
  decide

/-- C4 (amended): `close_position_market` removes the position and appends
the history record in memory *before* the durable write; when the write
fails, the exception propagates with the position already removed, the
record appended to in-memory history only, and the persisted trades (and the
linked-exit-order cleanup) untouched — the close is not atomic. -/
theorem close_mutation_precedes_persist (s : TState) (position_id : String) (m : ℚ)
    (pos : Position)
    (h : s.positions.find? (fun p => p.id = position_id) = some pos) :
    closePositionMarket s position_id (some m) false =
      (Except.error (),
        { s with
          positions := s.positions.filter (fun p => p.id ≠ position_id)
          history := s.history ++ [marketCloseRecord s.fee_rate_taker pos m] }) := by
  unfold closePositionMarket
  rw [h]
  rfl

/-- Witness for C4: the amended behavior evaluated on the scenario state. -/
theorem close_mutation_precedes_persist_witness :
    closePositionMarket exTS "BTCUSDT-aaaaaa" (some 51000) false =
      (Except.error (),
        { exTS with
          positions := exTS.positions.filter (fun p => p.id ≠ "BTCUSDT-aaaaaa")
          history := exTS.history ++ [marketCloseRecord exTS.fee_rate_taker exPos 51000] }) := by
  exact close_mutation_precedes_persist exTS "BTCUSDT-aaaaaa" 51000 exPos (by rfl)

/-- C6 counterexample: closing an id with no matching open position returns
Python `None` as a normal result — not a `NotFoundError` (no such exception
exists in the codebase) — with the state untouched. -/
theorem close_missing_returns_none :
    closePositionMarket exTS "BTCUSDT-zzzzzz" (some 100) true = (Except.ok none, exTS) ∧
    (Except.ok (none : Option Closed) : Except Unit (Option Closed)) ≠ Except.error () := by
  constructor
  · rfl
  · intro hc
    cases hc

/-- C6 (amended): closing a position id that references no open position
returns `None` without raising, and has no side effects: positions, orders,
history and the persisted trades are exactly as before. -/
theorem close_missing_noop (s : TState) (position_id : String) (mark : Option ℚ)
    (persistOk : Bool) (h : ∀ p ∈ s.positions, p.id ≠ position_id) :
    closePositionMarket s position_id mark persistOk = (Except.ok none, s) := by
  have hfind : s.positions.find? (fun p => p.id = position_id) = none := by
    apply List.find?_eq_none.mpr
    intro p hp
    simpa using h p hp
  unfold closePositionMarket
  rw [hfind]

/-- Witness for C6: closing an unknown id on the scenario state changes
nothing and returns `None`. -/
theorem close_missing_noop_witness :
    closePositionMarket exTS "BTCUSDT-zzzzzz" (some 51000) true = (Except.ok none, exTS) := by
  exact close_missing_noop exTS "BTCUSDT-zzzzzz" (some 51000) true (by decide)

/-- C7 counterexample: a raw commission rate of exactly 1 is *not* divided by
10000 — the code divides only rates strictly greater than 1 — so the claim's
"any raw rate ≥ 1 is divided by 10000" fails at raw rate 1. -/
theorem normalize_rate_one_not_divided :
    normalizeRates (some 1) (some 1) = (1, 1) ∧ ((1 : ℚ) ≥ 1) ∧ (1 : ℚ) ≠ 1 / 10000 := by
  refine ⟨by decide, le_refl 1, by norm_num⟩

/-- C7 (amended): raw rates strictly greater than 1 are divided by 10000
(a raw rate of exactly 1 is returned unchanged), and the fixed defaults
maker 0.0002 / taker 0.0004 are returned when the lookup fails, a commission
field is missing, or a raw rate is zero. -/
theorem normalize_rates_spec :
    (∀ m t : ℚ, 1 < m → 1 < t →
      normalizeRates (some m) (some t) = (m / 10000, t / 10000)) ∧
    (∀ m t : ℚ, 0 < m → m ≤ 1 → 0 < t → t ≤ 1 →
      normalizeRates (some m) (some t) = (m, t)) ∧
    normalizeRates none none = (0.0002, 0.0004) ∧
    normalizeRates (some 0) (some 0) = (0.0002, 0.0004) := by
  refine ⟨?_, ?_, by norm_num [normalizeRates], by norm_num [normalizeRates]⟩
  · intro m t hm ht
    have hm' : m ≠ 0 := by rintro rfl; norm_num at hm
    have ht' : t ≠ 0 := by rintro rfl; norm_num at ht
    simp only [normalizeRates]
    rw [if_neg hm', if_neg ht', if_pos (show m > 1 from hm), if_pos (show t > 1 from ht)]
  · intro m t hm0 hm1 ht0 ht1
    simp only [normalizeRates]
    rw [if_neg hm0.ne', if_neg ht0.ne', if_neg (not_lt.mpr hm1), if_neg (not_lt.mpr ht1)]

/-- Witness for C7: a basis-point rate 15 normalizes to 0.0015, and a
fractional rate 0.5 is returned unchanged. -/
theorem normalize_rates_spec_witness :
    normalizeRates (some 15) (some 15) = (15 / 10000, 15 / 10000) ∧
    normalizeRates (some 0.5) (some 0.5) = (0.5, 0.5) := by
  exact ⟨normalize_rates_spec.1 15 15 (by norm_num) (by norm_num),
    normalize_rates_spec.2.1 0.5 0.5 (by norm_num) (by norm_num) (by norm_num) (by norm_num)⟩
